import Mathlib

/-!
Shallow embedding of the FairVote client logic (src/app/page.tsx,
src/app/elections/[id]/page.tsx, src/app/elections/[id]/results/page.tsx).

Strings are modelled as lists of characters so that the JavaScript
`trim` / `toLowerCase` normalization used at election creation can be
reasoned about structurally.  Firestore documents become Lean structures:

  * the `elections/{id}` document becomes `Election`,
  * the `results/{id}` document becomes `Tally`,
  * a `votes/{electionId}_{voterUid}` document becomes `Ballot`.

The model is per-election: `ElectionState` carries the one election, its
optional results document, and the list of its ballots, so the composite
Firestore key `{electionId}_{voterUid}` reduces to the `voterUid` field.
Both copies of `submitVote` in the source are line-for-line identical in
their validation and transaction logic, so a single Lean `submitVote`
embeds both.  Firestore `increment(1)` on a map entry creates the entry
with value 1 when it is absent, which `incrEntry` mirrors; the recount in
`closeAndPublish` instead only bumps keys already present
(`typeof counts[candidate] === "number"`), which `incrIfPresent` mirrors.
-/

abbrev Str := List Char

/-- Whitespace test used by the embedding of JavaScript `String.trim`. -/
def isSpaceChar (c : Char) : Bool :=
  c = ' ' ∨ c = '\t' ∨ c = '\n' ∨ c = '\r'

/-- Embedding of JavaScript `value.trim()`: drop whitespace at both ends. -/
def jsTrim (s : Str) : Str :=
  ((s.dropWhile isSpaceChar).reverse.dropWhile isSpaceChar).reverse

/-- Embedding of JavaScript `toLowerCase` on a single ASCII character. -/
def lowerChar (c : Char) : Char :=
  if 65 ≤ c.toNat ∧ c.toNat ≤ 90 then Char.ofNat (c.toNat + 32) else c

/-- Embedding of JavaScript `value.toLowerCase()`. -/
def jsLower (s : Str) : Str :=
  s.map lowerChar

/-- src/app/page.tsx line 42: `value.trim().toLowerCase()`. -/
def normalizeEmail (s : Str) : Str :=
  jsLower (jsTrim s)

/-- One step of JavaScript `new Set(...)` insertion: keep the first
occurrence of each element, in insertion order. -/
def insertIfAbsent (acc : List Str) (x : Str) : List Str :=
  if x ∈ acc then acc else acc ++ [x]

/-- Embedding of `Array.from(new Set(items))`. -/
def jsSetDedup (items : List Str) : List Str :=
  items.foldl insertIfAbsent []

/-- src/app/page.tsx lines 44-45:
`Array.from(new Set(items.map((item) => item.trim()).filter(Boolean)))`.
The `filter(Boolean)` drops entries that are empty after trimming. -/
def uniqueList (items : List Str) : List Str :=
  jsSetDedup ((items.map jsTrim).filter (fun s => s ≠ []))

/-- The `elections/{id}` document (the `Election` type in the source).
The optional booleans `isClosed?` / `resultsPublished?` are modelled as
`Bool` since an absent field is falsy in the source's conditionals. -/
structure Election where
  id : Str
  title : Str
  createdByUid : Str
  createdByEmail : Str
  maxSelections : Int
  candidates : List Str
  eligibleEmails : List Str
  isClosed : Bool
  resultsPublished : Bool
  deriving Repr, DecidableEq

/-- The `results/{electionId}` document.  The denormalized copies of
title/candidates/creator are not tracked since no claim reads them back. -/
structure Tally where
  counts : List (Str × Nat)
  totalVotes : Nat
  isPublished : Bool
  isClosed : Bool
  deriving Repr, DecidableEq

/-- A `votes/{electionId}_{voterUid}` document for the modelled election. -/
structure Ballot where
  voterUid : Str
  voterEmail : Str
  selections : List Str
  deriving Repr, DecidableEq

/-- The store restricted to one election: its `elections` document, its
optional `results` document, and all of its `votes` documents. -/
structure ElectionState where
  election : Election
  tally : Option Tally
  ballots : List Ballot
  deriving Repr, DecidableEq

/-- Value of a key in a counts map, if present. -/
def lookupCount (m : List (Str × Nat)) (k : Str) : Option Nat :=
  (m.find? (fun e => e.1 = k)).map (fun e => e.2)

/-- Value of a key in a counts map, defaulting to 0 for an absent key. -/
def countD (m : List (Str × Nat)) (k : Str) : Nat :=
  (lookupCount m k).getD 0

/-- Firestore `update(ref, { counts.c: increment(1) })`: bump the entry
for `c` by one, creating it with value 1 when absent. -/
def incrEntry : List (Str × Nat) → Str → List (Str × Nat)
  | [], c => [(c, 1)]
  | (k, v) :: rest, c =>
    if k = c then (k, v + 1) :: rest else (k, v) :: incrEntry rest c

/-- The recount's guarded bump (`if typeof counts[candidate] === "number"`):
bump the entry for `c` only when the key is already present. -/
def incrIfPresent : List (Str × Nat) → Str → List (Str × Nat)
  | [], _ => []
  | (k, v) :: rest, c =>
    if k = c then (k, v + 1) :: rest else (k, v) :: incrIfPresent rest c

/-- JavaScript `acc[k] = v` on a record modelled as an association list:
replace the entry when the key exists, append it otherwise. -/
def setEntry : List (Str × Nat) → Str → Nat → List (Str × Nat)
  | [], k, v => [(k, v)]
  | (k', v') :: rest, k, v =>
    if k' = k then (k', v) :: rest else (k', v') :: setEntry rest k v

/-- `candidates.reduce((acc, c) => { acc[c] = 0; return acc }, {})`. -/
def zeroCounts (cands : List Str) : List (Str × Nat) :=
  cands.foldl (fun acc c => setEntry acc c 0) []

/-- Sum of the values of a counts map (`sum(counts.values())`). -/
def sumCounts (m : List (Str × Nat)) : Nat :=
  (m.map (fun e => e.2)).sum

/-- The failure modes of `submitVote`: the two pre-transaction validation
rejections, and the two errors thrown inside the transaction. -/
inductive VoteError where
  | votingClosed
  | invalidSelectionCount
  | alreadyVoted
  | resultsMissing
  deriving Repr, DecidableEq

/-- Does a ballot for this voter already exist (`voteSnap.exists()`)? -/
def hasBallot (st : ElectionState) (voterUid : Str) : Bool :=
  st.ballots.any (fun b => b.voterUid = voterUid)

/-- src/app/page.tsx lines 255-316 and the identical
src/app/elections/[id]/page.tsx lines 157-216.  Pre-transaction checks:
closed election, then selection-count bounds.  Inside the transaction:
existing ballot throws ALREADY_VOTED, missing results document throws
RESULTS_MISSING; otherwise each selection bumps its counts entry by one,
totalVotes grows by the number of selections, and the ballot is written.
An error leaves the store untouched: either the whole transaction commits
or none of it does. -/
def submitVote (st : ElectionState) (voterUid voterEmail : Str)
    (selections : List Str) : Except VoteError ElectionState :=
  if st.election.isClosed then .error .votingClosed
  else if selections.length < 1 ∨
      (selections.length : Int) > st.election.maxSelections then
    .error .invalidSelectionCount
  else if hasBallot st voterUid then .error .alreadyVoted
  else
    match st.tally with
    | none => .error .resultsMissing
    | some t =>
      .ok { st with
        tally := some { t with
          counts := selections.foldl incrEntry t.counts
          totalVotes := t.totalVotes + selections.length }
        ballots := st.ballots ++ [⟨voterUid, voterEmail, selections⟩] }

/-- Does `closeAndPublish` take its recount branch?  True when the results
document is missing or its counts map has no keys. -/
def needsRecountB (st : ElectionState) : Bool :=
  match st.tally with
  | some t => t.counts.isEmpty
  | none => true

/-- Folding one ballot into the recount accumulator: bump every selection
that is an existing key, and add the selection count to totalVotes. -/
def recountBallot (acc : List (Str × Nat) × Nat) (b : Ballot) :
    List (Str × Nat) × Nat :=
  (b.selections.foldl incrIfPresent acc.1, acc.2 + b.selections.length)

/-- The recount scan over all ballots of the election. -/
def recountAll (ballots : List Ballot) (init : List (Str × Nat) × Nat) :
    List (Str × Nat) × Nat :=
  ballots.foldl recountBallot init

/-- The fault points of `closeAndPublish`: the bulk recount read, the
`updateDoc` on the elections document, and the `setDoc` on the results
document.  Each models the corresponding awaited call throwing. -/
inductive PubFail where
  | scanFail
  | electionWriteFail
  | tallyWriteFail
  deriving Repr, DecidableEq

/-- src/app/elections/[id]/page.tsx lines 273-352 with explicit fault
injection.  The counts/totalVotes to publish are the existing ones when
the counts map is non-empty, and otherwise are recomputed from the
ballots starting from a zeroed map over the election's candidates.  A
scan failure (possible only when the recount branch runs) or a failure of
the first write leaves everything unchanged; a failure of the second
write leaves the elections document already flipped but the results
document unchanged, since the two writes are separate awaited calls. -/
def closeAndPublishF (st : ElectionState) (failure : Option PubFail) :
    ElectionState :=
  let base : List (Str × Nat) × Nat :=
    match st.tally with
    | some t =>
      if t.counts.isEmpty then (zeroCounts st.election.candidates, 0)
      else (t.counts, t.totalVotes)
    | none => (zeroCounts st.election.candidates, 0)
  if needsRecountB st = true ∧ failure = some PubFail.scanFail then st
  else
    let final :=
      if needsRecountB st = true then recountAll st.ballots base else base
    if failure = some PubFail.electionWriteFail then st
    else
      let election' := { st.election with
        isClosed := true, resultsPublished := true }
      if failure = some PubFail.tallyWriteFail then
        { st with election := election' }
      else
        { st with
          election := election'
          tally := some { counts := final.1, totalVotes := final.2,
                          isPublished := true, isClosed := true } }

/-- The failure-free run of the recount/publish workflow. -/
def closeAndPublish (st : ElectionState) : ElectionState :=
  closeAndPublishF st none

/-- The validation rejections of `handleCreateElection`, in source order. -/
inductive CreateError where
  | emptyTitle
  | tooFewCandidates
  | badMaxSelections
  | noEligibleEmails
  deriving Repr, DecidableEq

/-- src/app/page.tsx lines 178-180: the stored eligible list is the
deduplicated trimmed input, mapped through `normalizeEmail`. -/
def storedEligibleEmails (eligibleLines : List Str) : List Str :=
  (uniqueList eligibleLines).map normalizeEmail

/-- src/app/page.tsx lines 175-177: the stored candidate list. -/
def storedCandidates (candidateLines : List Str) : List Str :=
  (uniqueList candidateLines).map jsTrim

/-- src/app/page.tsx lines 166-237.  The textarea inputs are modelled
after the `split("\n")` as lists of lines.  Validation in source order:
blank title, fewer than two candidates, maxSelections out of range,
empty eligible list.  On success the election document and its results
document (zeroed counts, totalVotes 0, both flags false) are created. -/
def handleCreateElection (title : Str) (maxSelections : Int)
    (candidateLines eligibleLines : List Str)
    (uid email electionId : Str) : Except CreateError ElectionState :=
  let candidates := storedCandidates candidateLines
  let eligibleEmails := storedEligibleEmails eligibleLines
  if jsTrim title = [] then .error .emptyTitle
  else if candidates.length < 2 then .error .tooFewCandidates
  else if maxSelections < 1 ∨ maxSelections > (candidates.length : Int) then
    .error .badMaxSelections
  else if eligibleEmails = [] then .error .noEligibleEmails
  else
    .ok {
      election := {
        id := electionId
        title := jsTrim title
        createdByUid := uid
        createdByEmail := email
        maxSelections := maxSelections
        candidates := candidates
        eligibleEmails := eligibleEmails
        isClosed := false
        resultsPublished := false }
      tally := some {
        counts := zeroCounts candidates
        totalVotes := 0
        isPublished := false
        isClosed := false }
      ballots := [] }

/-- What the public results page renders, as a pure projection. -/
inductive PublicView where
  | resultsNotFound
  | notPublished
  | published (counts : List (Str × Nat)) (totalVotes : Nat)
  deriving Repr, DecidableEq

/-- src/app/elections/[id]/results/page.tsx lines 64-137: a missing
results document renders "Results not found"; an unpublished one renders
"Results are not published yet"; a published one renders exactly the
counts and totalVotes of the results document. -/
def publicResultsPage (tallyDoc : Option Tally) : PublicView :=
  match tallyDoc with
  | none => .resultsNotFound
  | some t =>
    if t.isPublished then .published t.counts t.totalVotes
    else .notPublished

/-- The public page reads only the `results/{id}` document of the state. -/
def publicViewOfState (st : ElectionState) : PublicView :=
  publicResultsPage st.tally

/-- Run a list of vote submissions in order, requiring every one of them
to succeed. -/
def runVotes (st : ElectionState) :
    List (Str × Str × List Str) → Option ElectionState
  | [] => some st
  | (u, em, sels) :: rest =>
    match submitVote st u em sels with
    | .ok st' => runVotes st' rest
    | .error _ => none

/-- The recount branch of `closeAndPublish` as a standalone computation:
re-derive counts and totalVotes from the stored ballots. -/
def recomputeFromBallots (e : Election) (ballots : List Ballot) :
    List (Str × Nat) × Nat :=
  recountAll ballots (zeroCounts e.candidates, 0)

/-! ### Lemmas about the counts maps -/

theorem lookupCount_cons (k' : Str) (v : Nat) (rest : List (Str × Nat))
    (k : Str) :
    lookupCount ((k', v) :: rest) k =
      if k' = k then some v else lookupCount rest k := by
  by_cases h : k' = k <;> simp [lookupCount, List.find?, h]

theorem countD_nil (k : Str) : countD [] k = 0 := rfl

theorem countD_cons (k' : Str) (v : Nat) (rest : List (Str × Nat)) (k : Str) :
    countD ((k', v) :: rest) k = if k' = k then v else countD rest k := by
  by_cases h : k' = k <;> simp [countD, lookupCount_cons, h]

theorem countD_incrEntry (m : List (Str × Nat)) (a k : Str) :
    countD (incrEntry m a) k = countD m k + (if a = k then 1 else 0) := by
  induction m with
  | nil =>
    by_cases h : a = k <;> simp [incrEntry, countD_cons, countD_nil, h]
  | cons p rest ih =>
    obtain ⟨k', v⟩ := p
    by_cases hka : k' = a
    · subst hka
      by_cases hk : k' = k <;> simp [incrEntry, countD_cons, hk]
    · by_cases hk : k' = k
      · subst hk
        have hak : ¬ a = k' := fun h => hka h.symm
        simp [incrEntry, hka, countD_cons, hak]
      · simp [incrEntry, hka, countD_cons, hk, ih]

theorem countD_foldl_incrEntry (sels : List Str) (m : List (Str × Nat))
    (k : Str) :
    countD (sels.foldl incrEntry m) k = countD m k + sels.count k := by
  induction sels generalizing m with
  | nil => simp
  | cons a rest ih =>
    simp only [List.foldl_cons, ih, countD_incrEntry, List.count_cons,
      beq_iff_eq]
    by_cases h : a = k
    · simp [h]
      omega
    · simp [h]

theorem sumCounts_nil : sumCounts [] = 0 := rfl

theorem sumCounts_cons (k : Str) (v : Nat) (rest : List (Str × Nat)) :
    sumCounts ((k, v) :: rest) = v + sumCounts rest := by
  simp [sumCounts]

theorem sumCounts_incrEntry (m : List (Str × Nat)) (a : Str) :
    sumCounts (incrEntry m a) = sumCounts m + 1 := by
  induction m with
  | nil => simp [incrEntry, sumCounts_cons, sumCounts_nil]
  | cons p rest ih =>
    obtain ⟨k, v⟩ := p
    by_cases h : k = a <;>
      simp [incrEntry, h, sumCounts_cons, ih] <;> omega

theorem sumCounts_foldl_incrEntry (sels : List Str) (m : List (Str × Nat)) :
    sumCounts (sels.foldl incrEntry m) = sumCounts m + sels.length := by
  induction sels generalizing m with
  | nil => simp
  | cons a rest ih =>
    simp only [List.foldl_cons, ih, sumCounts_incrEntry, List.length_cons]
    omega

theorem incrEntry_ne_nil (m : List (Str × Nat)) (a : Str) :
    incrEntry m a ≠ [] := by
  cases m with
  | nil => simp [incrEntry]
  | cons p rest =>
    obtain ⟨k, v⟩ := p
    by_cases h : k = a <;> simp [incrEntry, h]

theorem foldl_incrEntry_ne_nil (sels : List Str) (m : List (Str × Nat))
    (h : m ≠ []) : sels.foldl incrEntry m ≠ [] := by
  induction sels generalizing m with
  | nil => simpa
  | cons a rest ih => exact ih _ (incrEntry_ne_nil m a)

theorem setEntry_ne_nil (m : List (Str × Nat)) (k : Str) (v : Nat) :
    setEntry m k v ≠ [] := by
  cases m with
  | nil => simp [setEntry]
  | cons p rest =>
    obtain ⟨k', v'⟩ := p
    by_cases h : k' = k <;> simp [setEntry, h]

theorem foldl_setEntry_ne_nil (l : List Str) (m : List (Str × Nat))
    (h : m ≠ []) : l.foldl (fun acc c => setEntry acc c 0) m ≠ [] := by
  induction l generalizing m with
  | nil => simpa
  | cons b rest ih => exact ih _ (setEntry_ne_nil m b 0)

theorem zeroCounts_ne_nil (cands : List Str) (h : cands ≠ []) :
    zeroCounts cands ≠ [] := by
  obtain ⟨c, rest, rfl⟩ := List.exists_cons_of_ne_nil h
  show List.foldl _ _ (c :: rest) ≠ []
  rw [List.foldl_cons]
  exact foldl_setEntry_ne_nil rest (setEntry [] c 0) (setEntry_ne_nil [] c 0)

theorem sumCounts_setEntry_zero (m : List (Str × Nat)) (k : Str)
    (h : sumCounts m = 0) : sumCounts (setEntry m k 0) = 0 := by
  induction m with
  | nil => simp [setEntry, sumCounts_cons, sumCounts_nil]
  | cons p rest ih =>
    obtain ⟨k', v'⟩ := p
    rw [sumCounts_cons] at h
    by_cases hk : k' = k
    · simp [setEntry, hk, sumCounts_cons]; omega
    · simp [setEntry, hk, sumCounts_cons, ih (by omega)]; omega

theorem foldl_setEntry_sum_zero (l : List Str) (m : List (Str × Nat))
    (h : sumCounts m = 0) :
    sumCounts (l.foldl (fun acc c => setEntry acc c 0) m) = 0 := by
  induction l generalizing m with
  | nil => simpa
  | cons b rest ih => exact ih _ (sumCounts_setEntry_zero m b h)

theorem sumCounts_zeroCounts (cands : List Str) :
    sumCounts (zeroCounts cands) = 0 :=
  foldl_setEntry_sum_zero cands [] rfl

/-- Membership of a key in a counts map. -/
def isKey (m : List (Str × Nat)) (k : Str) : Prop :=
  (lookupCount m k).isSome = true

theorem isKey_cons (k' : Str) (v : Nat) (rest : List (Str × Nat)) (k : Str) :
    isKey ((k', v) :: rest) k ↔ k' = k ∨ isKey rest k := by
  by_cases h : k' = k <;> simp [isKey, lookupCount_cons, h]

theorem isKey_incrEntry_of (m : List (Str × Nat)) (a k : Str)
    (h : isKey m k) : isKey (incrEntry m a) k := by
  induction m with
  | nil => simp [isKey, lookupCount] at h
  | cons p rest ih =>
    obtain ⟨k', v⟩ := p
    rw [isKey_cons] at h
    by_cases hka : k' = a
    · simp [incrEntry, hka, isKey_cons]
      rcases h with h | h
      · exact Or.inl (hka ▸ h)
      · exact Or.inr h
    · simp [incrEntry, hka, isKey_cons]
      rcases h with h | h
      · exact Or.inl h
      · exact Or.inr (ih h)

theorem isKey_foldl_incrEntry_of (sels : List Str) (m : List (Str × Nat))
    (k : Str) (h : isKey m k) : isKey (sels.foldl incrEntry m) k := by
  induction sels generalizing m with
  | nil => simpa
  | cons a rest ih => exact ih _ (isKey_incrEntry_of m a k h)

theorem incrEntry_eq_incrIfPresent (m : List (Str × Nat)) (a : Str)
    (h : isKey m a) : incrEntry m a = incrIfPresent m a := by
  induction m with
  | nil => simp [isKey, lookupCount] at h
  | cons p rest ih =>
    obtain ⟨k', v⟩ := p
    rw [isKey_cons] at h
    by_cases hka : k' = a
    · simp [incrEntry, incrIfPresent, hka]
    · have hrest : isKey rest a := by
        rcases h with h | h
        · exact absurd h hka
        · exact h
      simp [incrEntry, incrIfPresent, hka, ih hrest]

theorem foldl_incrEntry_eq_incrIfPresent (sels : List Str)
    (m : List (Str × Nat)) (h : ∀ c ∈ sels, isKey m c) :
    sels.foldl incrEntry m = sels.foldl incrIfPresent m := by
  induction sels generalizing m with
  | nil => rfl
  | cons a rest ih =>
    have ha : isKey m a := h a (List.mem_cons_self a rest)
    simp only [List.foldl_cons, incrEntry_eq_incrIfPresent m a ha]
    rw [← incrEntry_eq_incrIfPresent m a ha]
    exact ih (incrEntry m a) (fun c hc =>
      isKey_incrEntry_of m a c (h c (List.mem_cons_of_mem a hc)))

theorem length_incrIfPresent (m : List (Str × Nat)) (a : Str) :
    (incrIfPresent m a).length = m.length := by
  induction m with
  | nil => rfl
  | cons p rest ih =>
    obtain ⟨k', v⟩ := p
    by_cases h : k' = a <;> simp [incrIfPresent, h, ih]

theorem length_foldl_incrIfPresent (sels : List Str)
    (m : List (Str × Nat)) :
    (sels.foldl incrIfPresent m).length = m.length := by
  induction sels generalizing m with
  | nil => rfl
  | cons a rest ih => simp [List.foldl_cons, ih, length_incrIfPresent]

theorem length_recountAll (ballots : List Ballot)
    (init : List (Str × Nat) × Nat) :
    (recountAll ballots init).1.length = init.1.length := by
  induction ballots generalizing init with
  | nil => rfl
  | cons b rest ih =>
    simp [recountAll, List.foldl_cons] at ih ⊢
    rw [ih]
    exact length_foldl_incrIfPresent b.selections init.1

theorem isKey_setEntry (m : List (Str × Nat)) (k' : Str) (v : Nat) (k : Str) :
    isKey (setEntry m k' v) k ↔ k' = k ∨ isKey m k := by
  induction m with
  | nil => simp [setEntry, isKey_cons, isKey, lookupCount]
  | cons p rest ih =>
    obtain ⟨k'', v''⟩ := p
    by_cases h : k'' = k'
    · subst h
      by_cases hk : k'' = k <;> simp [setEntry, isKey_cons, hk]
    · simp [setEntry, h, isKey_cons, ih]
      tauto

theorem isKey_zeroCounts (cands : List Str) (c : Str) (h : c ∈ cands) :
    isKey (zeroCounts cands) c := by
  have main : ∀ (l : List Str) (m : List (Str × Nat)),
      c ∈ l ∨ isKey m c →
      isKey (l.foldl (fun acc x => setEntry acc x 0) m) c := by
    intro l
    induction l with
    | nil =>
      intro m hm
      rcases hm with hm | hm
      · exact absurd hm (List.not_mem_nil c)
      · exact hm
    | cons x rest ih =>
      intro m hm
      rw [List.foldl_cons]
      apply ih
      rcases hm with hm | hm
      · rcases List.mem_cons.mp hm with hm | hm
        · exact Or.inr ((isKey_setEntry m x 0 c).mpr (Or.inl hm.symm))
        · exact Or.inl hm
      · exact Or.inr ((isKey_setEntry m x 0 c).mpr (Or.inr hm))
  exact main cands [] (Or.inl h)

/-! ### Inversion lemmas for the vote transaction and the publish workflow -/

theorem submitVote_ok_inv (st : ElectionState) (u em : Str)
    (sels : List Str) (st' : ElectionState)
    (h : submitVote st u em sels = .ok st') :
    ∃ t, st.tally = some t ∧
      st'.election = st.election ∧
      st'.ballots = st.ballots ++ [⟨u, em, sels⟩] ∧
      st'.tally = some { t with
        counts := sels.foldl incrEntry t.counts
        totalVotes := t.totalVotes + sels.length } := by
  unfold submitVote at h
  split_ifs at h
  cases htally : st.tally with
  | none => rw [htally] at h; exact absurd h (by simp)
  | some t =>
    rw [htally] at h
    simp only [Except.ok.injEq] at h
    exact ⟨t, rfl, by rw [← h], by rw [← h], by rw [← h]⟩

theorem closeAndPublish_fastPath (st : ElectionState) (t : Tally)
    (htally : st.tally = some t) (hne : t.counts ≠ []) :
    closeAndPublish st =
      { election := { st.election with
          isClosed := true, resultsPublished := true }
        tally := some { counts := t.counts, totalVotes := t.totalVotes,
                        isPublished := true, isClosed := true }
        ballots := st.ballots } := by
  have hempty : t.counts.isEmpty = false := by
    simpa [List.isEmpty_iff] using hne
  unfold closeAndPublish closeAndPublishF needsRecountB
  rw [htally]
  simp [hempty]

theorem closeAndPublish_recountPath (st : ElectionState)
    (h : needsRecountB st = true) :
    closeAndPublish st =
      { election := { st.election with
          isClosed := true, resultsPublished := true }
        tally := some {
          counts := (recomputeFromBallots st.election st.ballots).1
          totalVotes := (recomputeFromBallots st.election st.ballots).2
          isPublished := true, isClosed := true }
        ballots := st.ballots } := by
  unfold closeAndPublish closeAndPublishF recomputeFromBallots
  cases htally : st.tally with
  | none => simp [h]
  | some t =>
    have hempty : t.counts.isEmpty = true := by
      unfold needsRecountB at h
      rw [htally] at h
      exact h
    have hnil : t.counts = [] := List.isEmpty_iff.mp hempty
    simp [h, htally, hempty, hnil]

theorem handleCreateElection_ok_inv (title : Str) (maxSel : Int)
    (candLines eligLines : List Str) (uid email eid : Str)
    (st0 : ElectionState)
    (h : handleCreateElection title maxSel candLines eligLines
      uid email eid = .ok st0) :
    2 ≤ (storedCandidates candLines).length ∧
    1 ≤ maxSel ∧
    maxSel ≤ ((storedCandidates candLines).length : Int) ∧
    storedEligibleEmails eligLines ≠ [] ∧
    st0 = {
      election := {
        id := eid
        title := jsTrim title
        createdByUid := uid
        createdByEmail := email
        maxSelections := maxSel
        candidates := storedCandidates candLines
        eligibleEmails := storedEligibleEmails eligLines
        isClosed := false
        resultsPublished := false }
      tally := some {
        counts := zeroCounts (storedCandidates candLines)
        totalVotes := 0
        isPublished := false
        isClosed := false }
      ballots := [] } := by
  by_cases h1 : jsTrim title = []
  · unfold handleCreateElection at h
    rw [if_pos h1] at h
    exact absurd h (by simp)
  by_cases h2 : (storedCandidates candLines).length < 2
  · unfold handleCreateElection at h
    rw [if_neg h1, if_pos h2] at h
    exact absurd h (by simp)
  by_cases h3 : maxSel < 1 ∨ maxSel > ((storedCandidates candLines).length : Int)
  · unfold handleCreateElection at h
    rw [if_neg h1, if_neg h2, if_pos h3] at h
    exact absurd h (by simp)
  by_cases h4 : storedEligibleEmails eligLines = []
  · unfold handleCreateElection at h
    rw [if_neg h1, if_neg h2, if_neg h3, if_pos h4] at h
    exact absurd h (by simp)
  unfold handleCreateElection at h
  rw [if_neg h1, if_neg h2, if_neg h3, if_neg h4] at h
  simp only [Except.ok.injEq] at h
  push_neg at h3
  exact ⟨by omega, h3.1, h3.2, h4, h.symm⟩

/-! ### Concrete fixtures used by witnesses and counterexamples -/

/-- The election of the spec's Scenario A. -/
def fixElection : Election where
  id := "e1".toList
  title := "Team Lead Election".toList
  createdByUid := "owner".toList
  createdByEmail := "o@x.com".toList
  maxSelections := 2
  candidates := ["Ava".toList, "Noah".toList, "Liam".toList]
  eligibleEmails := ["a@x.com".toList, "b@x.com".toList]
  isClosed := false
  resultsPublished := false

/-- The freshly created store for `fixElection`: zeroed counts, no votes. -/
def fixState : ElectionState where
  election := fixElection
  tally := some { counts := zeroCounts fixElection.candidates,
                  totalVotes := 0, isPublished := false, isClosed := false }
  ballots := []

/-! ### C1: the vote transaction -/

/-- C1: for every vote submission that reaches the transaction (open
election, selection count within bounds), the transaction fails with
AlreadyVoted when a ballot already exists for this voter, fails with
TallyMissing (RESULTS_MISSING) when the results document is absent, and
otherwise succeeds, bumping the counts entry of each selected name by
one per occurrence, adding the number of selections to totalVotes, and
creating exactly one ballot for this (election, voter) key. -/
theorem vote_transaction_contract (st : ElectionState) (u em : Str)
    (sels : List Str)
    (hopen : st.election.isClosed = false)
    (hmin : 1 ≤ sels.length)
    (hmax : (sels.length : Int) ≤ st.election.maxSelections) :
    (hasBallot st u = true → submitVote st u em sels = .error .alreadyVoted) ∧
    (hasBallot st u = false → st.tally = none →
      submitVote st u em sels = .error .resultsMissing) ∧
    (∀ t, hasBallot st u = false → st.tally = some t →
      ∃ st', submitVote st u em sels = .ok st' ∧
        (∃ t', st'.tally = some t' ∧
          (∀ c, countD t'.counts c = countD t.counts c + sels.count c) ∧
          t'.totalVotes = t.totalVotes + sels.length) ∧
        st'.ballots.countP (fun b => b.voterUid = u) = 1) := by
  have h1 : ¬ (st.election.isClosed = true) := by simp [hopen]
  have h2 : ¬ (sels.length < 1 ∨
      (sels.length : Int) > st.election.maxSelections) := by
    push_neg
    exact ⟨by omega, hmax⟩
  refine ⟨?_, ?_, ?_⟩
  · intro hb
    unfold submitVote
    rw [if_neg h1, if_neg h2, if_pos hb]
  · intro hb ht
    unfold submitVote
    rw [if_neg h1, if_neg h2, if_neg (by simp [hb]), ht]
  · intro t hb ht
    have hsv : submitVote st u em sels = .ok { st with
        tally := some { t with
          counts := sels.foldl incrEntry t.counts
          totalVotes := t.totalVotes + sels.length }
        ballots := st.ballots ++ [⟨u, em, sels⟩] } := by
      unfold submitVote
      rw [if_neg h1, if_neg h2, if_neg (by simp [hb]), ht]
    refine ⟨_, hsv, ⟨_, rfl, ?_, rfl⟩, ?_⟩
    · intro c
      exact countD_foldl_incrEntry sels t.counts c
    · have hzero : st.ballots.countP (fun b => b.voterUid = u) = 0 := by
        rw [List.countP_eq_zero]
        intro b hbmem
        simp only [hasBallot, List.any_eq_false] at hb
        simpa using hb b hbmem
      simp [List.countP_append, hzero, List.countP_cons]

/-- C1 witness: in the fresh Scenario A store, voter a@x.com submitting
two candidates yields counts Ava 1, Noah 1, Liam 0 and totalVotes 2 with
one ballot written. -/
theorem vote_transaction_contract_witness :
    ∃ st', submitVote fixState "v1".toList "a@x.com".toList
        ["Ava".toList, "Noah".toList] = .ok st' ∧
      (∃ t', st'.tally = some t' ∧
        (∀ c, countD t'.counts c =
          countD (zeroCounts fixElection.candidates) c +
            (["Ava".toList, "Noah".toList]).count c) ∧
        t'.totalVotes = 0 + 2) ∧
      st'.ballots.countP (fun b => b.voterUid = "v1".toList) = 1 :=
  (vote_transaction_contract fixState "v1".toList "a@x.com".toList
      ["Ava".toList, "Noah".toList] (by decide) (by decide)
      (by decide)).2.2
    { counts := zeroCounts fixElection.candidates, totalVotes := 0,
      isPublished := false, isClosed := false }
    (by decide) rfl

/-! ### C5: pre-transaction validation -/

/-- C5: a vote submission on a closed election, or with fewer than one or
more than maxSelections selections, is rejected by the checks that run
before the transaction, so neither the ballot store nor the tally is
touched; the result is one of the two pre-transaction validation
errors. -/
theorem vote_validation_rejects (st : ElectionState) (u em : Str)
    (sels : List Str)
    (h : st.election.isClosed = true ∨ sels.length < 1 ∨
      (sels.length : Int) > st.election.maxSelections) :
    submitVote st u em sels = .error .votingClosed ∨
    submitVote st u em sels = .error .invalidSelectionCount := by
  by_cases hc : st.election.isClosed = true
  · left
    unfold submitVote
    rw [if_pos hc]
  · right
    have hlen : sels.length < 1 ∨
        (sels.length : Int) > st.election.maxSelections := by
      rcases h with h | h | h
      · exact absurd h hc
      · exact Or.inl h
      · exact Or.inr h
    unfold submitVote
    rw [if_neg hc, if_pos hlen]

/-- C5 witness: the spec's Scenario C — submitting 3 selections when
maxSelections is 2 fails with the selection-count validation error. -/
theorem vote_validation_rejects_witness :
    submitVote fixState "v1".toList "a@x.com".toList
        ["Ava".toList, "Noah".toList, "Liam".toList] =
      .error .votingClosed ∨
    submitVote fixState "v1".toList "a@x.com".toList
        ["Ava".toList, "Noah".toList, "Liam".toList] =
      .error .invalidSelectionCount :=
  vote_validation_rejects fixState "v1".toList "a@x.com".toList
    ["Ava".toList, "Noah".toList, "Liam".toList] (by decide)

/-! ### C10: membership and distinctness of selections are not checked -/

/-- C10: the vote-submission path never checks that selections are
candidates of the election, nor that they are distinct.  A selection
list holding the unknown name Zed passes validation and the transaction
succeeds, creating a counts entry Zed with value 1; a selection list
holding Ava twice also succeeds and leaves the Ava entry at 2. -/
theorem vote_accepts_unknown_and_duplicate_names :
    ("Zed".toList ∉ fixElection.candidates) ∧
    (∃ st', submitVote fixState "v1".toList "a@x.com".toList
        ["Zed".toList] = .ok st' ∧
      ∃ t', st'.tally = some t' ∧
        countD t'.counts "Zed".toList = 1 ∧
        t'.totalVotes = 1) ∧
    (∃ st', submitVote fixState "v1".toList "a@x.com".toList
        ["Ava".toList, "Ava".toList] = .ok st' ∧
      ∃ t', st'.tally = some t' ∧
        countD t'.counts "Ava".toList = 2 ∧
        t'.totalVotes = 2) := by
  refine ⟨by decide, ⟨_, rfl, ⟨_, rfl, by decide, by decide⟩⟩,
    ⟨_, rfl, ⟨_, rfl, by decide, by decide⟩⟩⟩

/-! ### C9: the public results projection -/

/-- C9: the public page returns the counts and totalVotes of the results
document exactly when its isPublished flag is set; otherwise it reports
not-published no matter what the counts hold; and its output depends on
the results document alone, never on the ballots or voter identities. -/
theorem public_view_contract (t : Tally) (st st' : ElectionState) :
    (t.isPublished = true →
      publicResultsPage (some t) = .published t.counts t.totalVotes) ∧
    (t.isPublished = false → publicResultsPage (some t) = .notPublished) ∧
    (st.tally = st'.tally → publicViewOfState st = publicViewOfState st') := by
  refine ⟨?_, ?_, ?_⟩
  · intro h
    simp [publicResultsPage, h]
  · intro h
    simp [publicResultsPage, h]
  · intro h
    simp [publicViewOfState, h]

/-- A published results document used by the C9 witness. -/
def fixPublishedTally : Tally where
  counts := [("Ava".toList, 2), ("Noah".toList, 1)]
  totalVotes := 3
  isPublished := true
  isClosed := true

/-- An unpublished results document with populated counts. -/
def fixUnpublishedTally : Tally where
  counts := [("Ava".toList, 2), ("Noah".toList, 1)]
  totalVotes := 3
  isPublished := false
  isClosed := false

/-- A copy of the fresh store with a ballot present but the same tally. -/
def fixStateWithBallot : ElectionState :=
  { fixState with
    ballots := [⟨"v9".toList, "b@x.com".toList, ["Liam".toList]⟩] }

/-- C9 witness: a published document renders its counts, the same counts
unpublished render as not-published, and adding a ballot without touching
the results document leaves the public view identical. -/
theorem public_view_contract_witness :
    publicResultsPage (some fixPublishedTally) =
      .published fixPublishedTally.counts fixPublishedTally.totalVotes ∧
    publicResultsPage (some fixUnpublishedTally) = .notPublished ∧
    publicViewOfState fixState = publicViewOfState fixStateWithBallot :=
  ⟨(public_view_contract fixPublishedTally fixState fixState).1 rfl,
   (public_view_contract fixUnpublishedTally fixState fixState).2.1 rfl,
   (public_view_contract fixPublishedTally fixState
      fixStateWithBallot).2.2 rfl⟩

/-! ### C2: the tally invariant along reachable states -/

/-- One transition of the modelled system: a successful vote transaction,
or a run of the recount/publish workflow. -/
inductive Step : ElectionState → ElectionState → Prop where
  | vote {st st' : ElectionState} (u em : Str) (sels : List Str)
      (h : submitVote st u em sels = .ok st') : Step st st'
  | recount {st : ElectionState} : Step st (closeAndPublish st)

/-- Reachability by any sequence of successful vote transactions and
recounts. -/
inductive ReachableFrom (st0 : ElectionState) : ElectionState → Prop where
  | refl : ReachableFrom st0 st0
  | tail {st st' : ElectionState} (h : ReachableFrom st0 st)
      (hs : Step st st') : ReachableFrom st0 st'

/-- The spec's §3 invariant: the results document exists, its counts map
is populated, and totalVotes equals the sum of the counts values. -/
def TallyInv (st : ElectionState) : Prop :=
  ∃ t, st.tally = some t ∧ t.counts ≠ [] ∧ sumCounts t.counts = t.totalVotes

theorem tallyInv_step (st st' : ElectionState) (hinv : TallyInv st)
    (hs : Step st st') : TallyInv st' := by
  obtain ⟨t, htally, hne, hsum⟩ := hinv
  cases hs with
  | vote u em sels h =>
    obtain ⟨t1, ht1, _, _, htally'⟩ := submitVote_ok_inv st u em sels st' h
    rw [htally] at ht1
    injection ht1 with ht1
    subst ht1
    refine ⟨_, htally', ?_, ?_⟩
    · exact foldl_incrEntry_ne_nil sels t.counts hne
    · simp [sumCounts_foldl_incrEntry, hsum]
  | recount =>
    rw [closeAndPublish_fastPath st t htally hne]
    exact ⟨_, rfl, hne, hsum⟩

/-- C2: starting from any freshly and successfully created election, the
invariant totalVotes = sum(counts.values()) holds in every state
reachable by successful vote transactions and recounts — including votes
whose selections hold names that were not yet keys of the counts map,
since the transaction's increment creates the missing entry. -/
theorem tally_invariant_reachable (title : Str) (maxSel : Int)
    (candLines eligLines : List Str) (uid email eid : Str)
    (st0 st : ElectionState)
    (hcreate : handleCreateElection title maxSel candLines eligLines
      uid email eid = .ok st0)
    (hreach : ReachableFrom st0 st) : TallyInv st := by
  have hbase : TallyInv st0 := by
    obtain ⟨hlen, _, _, _, hshape⟩ := handleCreateElection_ok_inv title maxSel
      candLines eligLines uid email eid st0 hcreate
    subst hshape
    refine ⟨_, rfl, ?_, ?_⟩
    · exact zeroCounts_ne_nil _ (by
        intro hnil
        rw [hnil] at hlen
        simp at hlen)
    · simpa using sumCounts_zeroCounts (storedCandidates candLines)
  induction hreach with
  | refl => exact hbase
  | tail h hs ih => exact tallyInv_step _ _ ih hs

/-- The store after the Scenario A vote, written out explicitly. -/
def fixVotedState : ElectionState where
  election := fixElection
  tally := some { counts := [("Ava".toList, 1), ("Noah".toList, 1),
                             ("Liam".toList, 0)],
                  totalVotes := 2, isPublished := false, isClosed := false }
  ballots := [⟨"v1".toList, "a@x.com".toList,
              ["Ava".toList, "Noah".toList]⟩]

/-- C2 witness: the state reached by creating the Scenario A election and
applying one successful vote transaction satisfies the invariant. -/
theorem tally_invariant_reachable_witness : TallyInv fixVotedState :=
  tally_invariant_reachable "Team Lead Election".toList 2
    ["Ava".toList, "Noah".toList, "Liam".toList]
    ["a@x.com".toList, "b@x.com".toList]
    "owner".toList "o@x.com".toList "e1".toList
    fixState fixVotedState rfl
    (ReachableFrom.tail ReachableFrom.refl
      (Step.vote "v1".toList "a@x.com".toList
        ["Ava".toList, "Noah".toList] rfl))

/-! ### C7: idempotence of the recount/publish workflow -/

/-- C7: with at least one candidate on the election, the first run of
closeAndPublish writes a non-empty counts map, so a second run with no
votes in between reads that non-empty map, takes the trust-it-as-is fast
path, and writes back exactly the same counts and totalVotes. -/
theorem closeAndPublish_idempotent (st : ElectionState)
    (h : st.election.candidates ≠ []) :
    ∃ t1 t2, (closeAndPublish st).tally = some t1 ∧
      (closeAndPublish (closeAndPublish st)).tally = some t2 ∧
      t1.counts ≠ [] ∧ t2.counts = t1.counts ∧
      t2.totalVotes = t1.totalVotes := by
  by_cases hr : needsRecountB st = true
  · have hfirst := closeAndPublish_recountPath st hr
    set res := recomputeFromBallots st.election st.ballots with hres
    have hne : res.1 ≠ [] := by
      have hlen : res.1.length = (zeroCounts st.election.candidates).length :=
        length_recountAll st.ballots (zeroCounts st.election.candidates, 0)
      intro hnil
      rw [hnil] at hlen
      exact zeroCounts_ne_nil st.election.candidates h
        (List.length_eq_zero.mp hlen.symm)
    have hsecond := closeAndPublish_fastPath (closeAndPublish st)
      { counts := res.1, totalVotes := res.2,
        isPublished := true, isClosed := true }
      (by rw [hfirst]) hne
    exact ⟨⟨res.1, res.2, true, true⟩, ⟨res.1, res.2, true, true⟩,
      by rw [hfirst], by rw [hsecond], hne, rfl, rfl⟩
  · have hsome : ∃ t, st.tally = some t ∧ t.counts ≠ [] := by
      unfold needsRecountB at hr
      cases htally : st.tally with
      | none => rw [htally] at hr; simp at hr
      | some t =>
        rw [htally] at hr
        exact ⟨t, rfl, by simpa [List.isEmpty_iff] using hr⟩
    obtain ⟨t, htally, hne⟩ := hsome
    have hfirst := closeAndPublish_fastPath st t htally hne
    have hsecond := closeAndPublish_fastPath (closeAndPublish st)
      { counts := t.counts, totalVotes := t.totalVotes,
        isPublished := true, isClosed := true }
      (by rw [hfirst]) hne
    exact ⟨⟨t.counts, t.totalVotes, true, true⟩,
      ⟨t.counts, t.totalVotes, true, true⟩,
      by rw [hfirst], by rw [hsecond], hne, rfl, rfl⟩

/-- C7 witness: running the workflow twice on the voted Scenario A store
reproduces the first run's counts and totalVotes. -/
theorem closeAndPublish_idempotent_witness :
    ∃ t1 t2, (closeAndPublish fixVotedState).tally = some t1 ∧
      (closeAndPublish (closeAndPublish fixVotedState)).tally = some t2 ∧
      t1.counts ≠ [] ∧ t2.counts = t1.counts ∧
      t2.totalVotes = t1.totalVotes :=
  closeAndPublish_idempotent fixVotedState (by decide)

/-! ### C3: failure behavior of the recount/publish workflow -/

/-- The fresh store with its results document missing, so the workflow
must take the recount branch. -/
def fixNoTallyState : ElectionState :=
  { fixState with tally := none }

/-- C3 counterexample: on the voted store, a failure of the results-document
write after the elections-document write has succeeded leaves the Election
record's flags flipped to closed/published while the Tally is untouched —
one record updated, the other not, contradicting the claim that any write
failure leaves both records unchanged. -/
theorem publish_halfway_failure_counterexample :
    (closeAndPublishF fixVotedState
      (some PubFail.tallyWriteFail)).election.isClosed = true ∧
    (closeAndPublishF fixVotedState
      (some PubFail.tallyWriteFail)).election.resultsPublished = true ∧
    fixVotedState.election.isClosed = false ∧
    fixVotedState.election.resultsPublished = false ∧
    (closeAndPublishF fixVotedState
      (some PubFail.tallyWriteFail)).tally = fixVotedState.tally :=
  ⟨rfl, rfl, rfl, rfl, rfl⟩

/-- C3 amended: a failure of the recount scan (possible only when the
recount branch runs) or of the first write — the elections-document
update — leaves both records unchanged, because the workflow computes the
full counts before issuing any write; but a failure of the second write —
the results-document setDoc — leaves the Election record already flipped
to closed/published while the Tally and the ballots are unchanged. -/
theorem publish_failure_behavior (st : ElectionState) :
    (needsRecountB st = true →
      closeAndPublishF st (some PubFail.scanFail) = st) ∧
    closeAndPublishF st (some PubFail.electionWriteFail) = st ∧
    ((closeAndPublishF st (some PubFail.tallyWriteFail)).tally = st.tally ∧
     (closeAndPublishF st (some PubFail.tallyWriteFail)).ballots =
       st.ballots ∧
     (closeAndPublishF st (some PubFail.tallyWriteFail)).election =
       { st.election with isClosed := true, resultsPublished := true }) := by
  refine ⟨?_, ?_, ?_, ?_, ?_⟩
  · intro hr
    simp [closeAndPublishF, hr]
  · simp [closeAndPublishF]
  · simp [closeAndPublishF]
  · simp [closeAndPublishF]
  · simp [closeAndPublishF]

/-- C3 witness for the amended statement: on a store with the results
document missing, a scan failure and an elections-write failure each
leave the store exactly as it was. -/
theorem publish_failure_behavior_witness :
    closeAndPublishF fixNoTallyState (some PubFail.scanFail) =
      fixNoTallyState ∧
    closeAndPublishF fixNoTallyState (some PubFail.electionWriteFail) =
      fixNoTallyState :=
  ⟨(publish_failure_behavior fixNoTallyState).1 rfl,
   (publish_failure_behavior fixNoTallyState).2.1⟩

/-! ### C8: validation at election creation -/

/-- The candidate textarea lines of the Scenario A election. -/
def fixCandLines : List Str := ["Ava".toList, "Noah".toList, "Liam".toList]

/-- The eligible-email textarea lines of the Scenario A election. -/
def fixEligLines : List Str := ["a@x.com".toList, "b@x.com".toList]

/-- C8: creation succeeds only when the deduplicated trimmed candidate
list has at least two entries, maxSelections lies between 1 and the
candidate count, and the normalized eligible list is non-empty; whenever
one of these conditions fails, creation returns a validation error, and
in the error case no election and no tally record is produced. -/
theorem election_creation_validation (title : Str) (maxSel : Int)
    (candLines eligLines : List Str) (uid email eid : Str) :
    (∀ st0, handleCreateElection title maxSel candLines eligLines
        uid email eid = .ok st0 →
      2 ≤ (storedCandidates candLines).length ∧
      1 ≤ maxSel ∧
      maxSel ≤ ((storedCandidates candLines).length : Int) ∧
      storedEligibleEmails eligLines ≠ []) ∧
    ((storedCandidates candLines).length < 2 ∨ maxSel < 1 ∨
      maxSel > ((storedCandidates candLines).length : Int) ∨
      storedEligibleEmails eligLines = [] →
      ∃ err, handleCreateElection title maxSel candLines eligLines
        uid email eid = .error err) := by
  constructor
  · intro st0 h
    obtain ⟨a, b, c, d, _⟩ := handleCreateElection_ok_inv title maxSel
      candLines eligLines uid email eid st0 h
    exact ⟨a, b, c, d⟩
  · intro hbad
    cases hres : handleCreateElection title maxSel candLines eligLines
        uid email eid with
    | error e => exact ⟨e, rfl⟩
    | ok st0 =>
      obtain ⟨a, b, c, d, _⟩ := handleCreateElection_ok_inv title maxSel
        candLines eligLines uid email eid st0 hres
      rcases hbad with hb | hb | hb | hb
      · omega
      · omega
      · omega
      · exact absurd hb d

/-- C8 witness: the Scenario A inputs with maxSelections 2 satisfy every
creation condition, while the same inputs with maxSelections 0 make
creation return a validation error. -/
theorem election_creation_validation_witness :
    (2 ≤ (storedCandidates fixCandLines).length ∧
      1 ≤ (2 : Int) ∧
      (2 : Int) ≤ ((storedCandidates fixCandLines).length : Int) ∧
      storedEligibleEmails fixEligLines ≠ []) ∧
    (∃ err, handleCreateElection "Team Lead Election".toList 0
      fixCandLines fixEligLines "owner".toList "o@x.com".toList
      "e1".toList = .error err) :=
  ⟨(election_creation_validation "Team Lead Election".toList 2
      fixCandLines fixEligLines "owner".toList "o@x.com".toList
      "e1".toList).1 fixState rfl,
   (election_creation_validation "Team Lead Election".toList 0
      fixCandLines fixEligLines "owner".toList "o@x.com".toList
      "e1".toList).2 (Or.inr (Or.inl (by decide)))⟩

/-! ### C6: recount reproduces the running tally -/

/-- Invariant tying the running tally to a recount over the stored
ballots: the results document exists, recounting the ballots from a
zeroed candidate map reproduces exactly its counts and totalVotes, and
every candidate is a key of the counts map. -/
def RecountInv (e : Election) (st : ElectionState) : Prop :=
  st.election = e ∧ ∃ t, st.tally = some t ∧
    recountAll st.ballots (zeroCounts e.candidates, 0) =
      (t.counts, t.totalVotes) ∧
    ∀ c ∈ e.candidates, isKey t.counts c

theorem runVotes_recountInv (e : Election)
    (votes : List (Str × Str × List Str)) :
    ∀ st st', RecountInv e st →
      (∀ v ∈ votes, ∀ c ∈ v.2.2, c ∈ e.candidates) →
      runVotes st votes = some st' → RecountInv e st' := by
  induction votes with
  | nil =>
    intro st st' hinv _ hrun
    simp only [runVotes, Option.some.injEq] at hrun
    exact hrun ▸ hinv
  | cons v rest ih =>
    intro st st' hinv hsel hrun
    obtain ⟨u, em, sels⟩ := v
    simp only [runVotes] at hrun
    cases hsv : submitVote st u em sels with
    | error errv =>
      rw [hsv] at hrun
      exact absurd hrun (by simp)
    | ok st1 =>
      rw [hsv] at hrun
      refine ih st1 st' ?_ ?_ hrun
      · obtain ⟨helec, t, htally, hrec, hkeys⟩ := hinv
        obtain ⟨t1, ht1, helec', hballots', htally'⟩ :=
          submitVote_ok_inv st u em sels st1 hsv
        rw [htally] at ht1
        injection ht1 with ht1
        subst ht1
        have hselshead : ∀ c ∈ sels, c ∈ e.candidates := by
          intro c hc
          exact hsel (u, em, sels) (List.mem_cons_self _ _) c hc
        have hselskeys : ∀ c ∈ sels, isKey t.counts c := by
          intro c hc
          exact hkeys c (hselshead c hc)
        refine ⟨by rw [helec', helec], _, htally', ?_, ?_⟩
        · rw [hballots']
          unfold recountAll at hrec ⊢
          rw [List.foldl_append, hrec]
          simp only [List.foldl_cons, List.foldl_nil, recountBallot]
          rw [← foldl_incrEntry_eq_incrIfPresent sels t.counts hselskeys]
        · intro c hc
          exact isKey_foldl_incrEntry_of sels t.counts c (hkeys c hc)
      · intro w hw
        exact hsel w (List.mem_cons_of_mem _ hw)

/-- C6: after any run of successful vote transactions from a freshly
created election in which every selection names a candidate of the
election, recomputing counts and totalVotes from the stored ballots (the
recount branch of closeAndPublish) reproduces exactly the counts map and
totalVotes of the running tally maintained by the vote transactions. -/
theorem recount_matches_running_tally (title : Str) (maxSel : Int)
    (candLines eligLines : List Str) (uid email eid : Str)
    (st0 st : ElectionState) (votes : List (Str × Str × List Str))
    (hcreate : handleCreateElection title maxSel candLines eligLines
      uid email eid = .ok st0)
    (hsel : ∀ v ∈ votes, ∀ c ∈ v.2.2, c ∈ st0.election.candidates)
    (hrun : runVotes st0 votes = some st) :
    ∃ t, st.tally = some t ∧
      recomputeFromBallots st.election st.ballots =
        (t.counts, t.totalVotes) := by
  obtain ⟨_, _, _, _, hshape⟩ := handleCreateElection_ok_inv title maxSel
    candLines eligLines uid email eid st0 hcreate
  have hbase : RecountInv st0.election st0 := by
    subst hshape
    refine ⟨rfl, _, rfl, rfl, ?_⟩
    intro c hc
    exact isKey_zeroCounts (storedCandidates candLines) c hc
  obtain ⟨helec, t, htally, hrec, _⟩ :=
    runVotes_recountInv st0.election votes st0 st hbase hsel hrun
  refine ⟨t, htally, ?_⟩
  unfold recomputeFromBallots
  rw [helec]
  exact hrec

/-- C6 witness: in the Scenario A election, one successful vote for Ava
and Noah leaves a store whose ballot recount reproduces the running
tally's counts and totalVotes. -/
theorem recount_matches_running_tally_witness :
    ∃ t, fixVotedState.tally = some t ∧
      recomputeFromBallots fixVotedState.election fixVotedState.ballots =
        (t.counts, t.totalVotes) :=
  recount_matches_running_tally "Team Lead Election".toList 2
    fixCandLines fixEligLines "owner".toList "o@x.com".toList "e1".toList
    fixState fixVotedState
    [("v1".toList, "a@x.com".toList, ["Ava".toList, "Noah".toList])]
    rfl (by decide) rfl

/-! ### C4: normalization of the eligible-email list -/

theorem charOfNat_toNat (n : Nat) (h : n.isValidChar) :
    (Char.ofNat n).toNat = n := by
  rw [Char.ofNat, dif_pos h]
  rfl

theorem lowerChar_toNat (c : Char) (h : 65 ≤ c.toNat ∧ c.toNat ≤ 90) :
    (lowerChar c).toNat = c.toNat + 32 := by
  unfold lowerChar
  rw [if_pos h]
  exact charOfNat_toNat (c.toNat + 32) (Or.inl (by omega))

theorem lowerChar_eq_self (c : Char) (h : ¬ (65 ≤ c.toNat ∧ c.toNat ≤ 90)) :
    lowerChar c = c := by
  unfold lowerChar
  rw [if_neg h]

theorem lowerChar_idem (c : Char) : lowerChar (lowerChar c) = lowerChar c := by
  by_cases h : 65 ≤ c.toNat ∧ c.toNat ≤ 90
  · have ht := lowerChar_toNat c h
    exact lowerChar_eq_self (lowerChar c) (by rw [ht]; omega)
  · rw [lowerChar_eq_self c h]
    exact lowerChar_eq_self c h

theorem isSpaceChar_eq_false_of_toNat (x : Char)
    (h : x.toNat ≠ 32 ∧ x.toNat ≠ 9 ∧ x.toNat ≠ 10 ∧ x.toNat ≠ 13) :
    isSpaceChar x = false := by
  obtain ⟨h32, h9, h10, h13⟩ := h
  simp only [isSpaceChar, decide_eq_false_iff_not]
  push_neg
  refine ⟨?_, ?_, ?_, ?_⟩
  · intro he
    exact h32 (by rw [he]; rfl)
  · intro he
    exact h9 (by rw [he]; rfl)
  · intro he
    exact h10 (by rw [he]; rfl)
  · intro he
    exact h13 (by rw [he]; rfl)

theorem isSpaceChar_lowerChar (c : Char) :
    isSpaceChar (lowerChar c) = isSpaceChar c := by
  by_cases h : 65 ≤ c.toNat ∧ c.toNat ≤ 90
  · have ht := lowerChar_toNat c h
    rw [isSpaceChar_eq_false_of_toNat c (by omega),
      isSpaceChar_eq_false_of_toNat (lowerChar c) (by rw [ht]; omega)]
  · rw [lowerChar_eq_self c h]

theorem p_head_of_dropWhile (p : Char → Bool) :
    ∀ (l : Str) (b : Char) (t : Str),
      List.dropWhile p l = b :: t → p b = false := by
  intro l
  induction l with
  | nil =>
    intro b t h
    simp at h
  | cons a l' ih =>
    intro b t h
    rw [List.dropWhile_cons] at h
    by_cases ha : p a = true
    · rw [if_pos ha] at h
      exact ih b t h
    · rw [if_neg ha] at h
      injection h with h1 _
      rw [← h1]
      simpa using ha

theorem dropWhile_idem (p : Char → Bool) (l : Str) :
    List.dropWhile p (List.dropWhile p l) = List.dropWhile p l := by
  induction l with
  | nil => rfl
  | cons a t ih =>
    rw [List.dropWhile_cons]
    by_cases ha : p a = true
    · rw [if_pos ha]
      exact ih
    · rw [if_neg ha, List.dropWhile_cons, if_neg ha]

theorem dropWhile_eq_self_of_starts (p : Char → Bool) (l B : Str)
    (hB : B <+: List.dropWhile p l) : List.dropWhile p B = B := by
  cases B with
  | nil => rfl
  | cons b B' =>
    obtain ⟨t, ht⟩ := hB
    have hb : p b = false := p_head_of_dropWhile p l b (B' ++ t) ht.symm
    rw [List.dropWhile_cons, if_neg (by simp [hb])]

theorem jsTrim_starts_dropWhile (s : Str) :
    jsTrim s <+: List.dropWhile isSpaceChar s := by
  unfold jsTrim
  have h1 : (List.dropWhile isSpaceChar
        (List.dropWhile isSpaceChar s).reverse).reverse <+:
      (List.dropWhile isSpaceChar s).reverse.reverse :=
    List.reverse_prefix.mpr (List.dropWhile_suffix isSpaceChar)
  rw [List.reverse_reverse] at h1
  exact h1

theorem dropWhile_jsTrim (s : Str) :
    List.dropWhile isSpaceChar (jsTrim s) = jsTrim s :=
  dropWhile_eq_self_of_starts isSpaceChar s (jsTrim s)
    (jsTrim_starts_dropWhile s)

theorem jsTrim_idem (s : Str) : jsTrim (jsTrim s) = jsTrim s := by
  conv =>
    lhs
    rw [jsTrim, dropWhile_jsTrim]
  rw [jsTrim, List.reverse_reverse, dropWhile_idem]

theorem dropWhile_space_map_lower (l : Str) :
    List.dropWhile isSpaceChar (l.map lowerChar) =
      (List.dropWhile isSpaceChar l).map lowerChar := by
  rw [List.dropWhile_map]
  have hp : (isSpaceChar ∘ lowerChar) = isSpaceChar :=
    funext isSpaceChar_lowerChar
  rw [hp]

theorem jsTrim_jsLower_comm (s : Str) :
    jsTrim (jsLower s) = jsLower (jsTrim s) := by
  unfold jsTrim jsLower
  simp only [dropWhile_space_map_lower, ← List.map_reverse]

theorem jsLower_idem (s : Str) : jsLower (jsLower s) = jsLower s := by
  unfold jsLower
  rw [List.map_map]
  have hp : (lowerChar ∘ lowerChar) = lowerChar := funext lowerChar_idem
  rw [hp]

theorem mem_jsSetDedup (items : List Str) (x : Str)
    (h : x ∈ jsSetDedup items) : x ∈ items := by
  have main : ∀ (l : List Str) (acc : List Str),
      x ∈ l.foldl insertIfAbsent acc → x ∈ acc ∨ x ∈ l := by
    intro l
    induction l with
    | nil =>
      intro acc hm
      exact Or.inl hm
    | cons a rest ih =>
      intro acc hm
      rw [List.foldl_cons] at hm
      rcases ih (insertIfAbsent acc a) hm with hm | hm
      · unfold insertIfAbsent at hm
        by_cases ha : a ∈ acc
        · rw [if_pos ha] at hm
          exact Or.inl hm
        · rw [if_neg ha] at hm
          rcases List.mem_append.mp hm with hm | hm
          · exact Or.inl hm
          · simp at hm
            exact Or.inr (by simp [hm])
      · exact Or.inr (List.mem_cons_of_mem a hm)
  rcases main items [] h with hc | hc
  · exact absurd hc (List.not_mem_nil x)
  · exact hc

theorem nodup_jsSetDedup (items : List Str) : (jsSetDedup items).Nodup := by
  have main : ∀ (l : List Str) (acc : List Str),
      acc.Nodup → (l.foldl insertIfAbsent acc).Nodup := by
    intro l
    induction l with
    | nil =>
      intro acc hacc
      exact hacc
    | cons a rest ih =>
      intro acc hacc
      rw [List.foldl_cons]
      apply ih
      unfold insertIfAbsent
      by_cases ha : a ∈ acc
      · rw [if_pos ha]
        exact hacc
      · rw [if_neg ha]
        simp [List.nodup_append, hacc, ha]
  exact main items [] List.nodup_nil

theorem mem_uniqueList_shape (lines : List Str) (x : Str)
    (h : x ∈ uniqueList lines) : ∃ y ∈ lines, x = jsTrim y := by
  unfold uniqueList at h
  have h1 := mem_jsSetDedup _ x h
  have h2 := (List.mem_filter.mp h1).1
  obtain ⟨y, hy, hxy⟩ := List.mem_map.mp h2
  exact ⟨y, hy, hxy.symm⟩

/-- C4 counterexample: the inputs A@x.com and a@x.com are distinct after
trimming, so the Set-based deduplication keeps both, and mapping
normalizeEmail afterwards turns them into two identical stored entries —
the stored list does contain a duplicate after normalization, refuting
the claim that entries equal after trimming and lower-casing are always
collapsed. -/
theorem eligible_email_dedup_counterexample :
    storedEligibleEmails ["A@x.com".toList, "a@x.com".toList] =
      ["a@x.com".toList, "a@x.com".toList] ∧
    ¬ (storedEligibleEmails ["A@x.com".toList, "a@x.com".toList]).Nodup := by
  exact ⟨by decide, by decide⟩

/-- C4 amended: every member of the stored eligibleEmails list is trimmed
and lower-cased, and entries equal after trimming alone are collapsed
(the deduplicated trimmed list has no duplicates); but because the
deduplication runs before lower-casing, two inputs that differ only in
letter case survive it and produce duplicate normalized entries in the
stored list. -/
theorem eligible_email_normalization (eligLines : List Str) :
    (∀ m ∈ storedEligibleEmails eligLines,
      jsTrim m = m ∧ jsLower m = m) ∧
    (uniqueList eligLines).Nodup := by
  constructor
  · intro m hm
    unfold storedEligibleEmails at hm
    obtain ⟨x, hx, hxm⟩ := List.mem_map.mp hm
    obtain ⟨y, _, hxy⟩ := mem_uniqueList_shape eligLines x hx
    subst hxy
    have hm2 : m = jsLower (jsTrim y) := by
      rw [← hxm]
      unfold normalizeEmail
      rw [jsTrim_idem]
    subst hm2
    constructor
    · rw [jsTrim_jsLower_comm, jsTrim_idem]
    · rw [jsLower_idem]
  · exact nodup_jsSetDedup _

/-- C4 witness: the single input line with spaces and capitals stores the
member a@x.com, which is a fixed point of both trimming and
lower-casing. -/
theorem eligible_email_normalization_witness :
    jsTrim "a@x.com".toList = "a@x.com".toList ∧
    jsLower "a@x.com".toList = "a@x.com".toList :=
  (eligible_email_normalization [" A@X.com ".toList]).1
    "a@x.com".toList (by decide)
